import Mathlib

/-!
# Verification of the Orbis real-time audio relay core

Shallow embedding of the per-speaker streaming pipeline
(`backend/services/audio_pipeline/stream_processor.py`), the connection
registry (`backend/services/audio_pipeline/websocket_manager.py`) and the
recognizer post-processing (`ml/asr/whisper_service.py`), together with
proofs of the specified properties.

Strings from the source are modelled as `List Char`; byte strings as
`List Nat` (each entry a byte value); Python floats, which in this code only
ever hold small dyadic fractions and exact comparisons against them, are
modelled as `ℚ`.  Definitions come first, then all theorems.
-/

namespace Orbis

/-! ## PCM decoding (`_bytes_to_audio_array`, stream_processor.py lines 593-610) -/

/-- Signed 16-bit value of a little-endian byte pair `(lo, hi)`, i.e. the
two's-complement reinterpretation of `lo + 256 * hi` (this is what
`np.frombuffer(..., dtype=np.int16)` computes per sample). -/
def int16OfBytes (lo hi : Nat) : Int :=
  let u : Nat := (lo + 256 * hi) % 65536
  if u < 32768 then (u : Int) else (u : Int) - 65536

/-- Decode a byte string into int16 samples, two bytes at a time; a trailing
odd byte is dropped (the source truncates `audio_data` to even length before
calling `np.frombuffer`). -/
def int16Samples : List Nat → List Int
  | [] => []
  | [_] => []
  | lo :: hi :: rest => int16OfBytes lo hi :: int16Samples rest

/-- The per-sample normalization `int16 / 32768.0`. -/
def sampleOfInt16 (v : Int) : ℚ := (v : ℚ) / 32768

/-- `_bytes_to_audio_array`: raw PCM bytes to normalized samples.  The source
returns `[]` for empty input, drops a trailing odd byte, reinterprets pairs as
int16 and divides by `32768.0`; every branch is subsumed by the pairwise
decoder. -/
def bytes_to_audio_array (audioData : List Nat) : List ℚ :=
  (int16Samples audioData).map sampleOfInt16

/-! ## Python string primitives

`str.strip()` removes whitespace from both ends; strings are `List Char`. -/

/-- Python's whitespace test (`str.strip`, regex `\s`). -/
def isSpace (c : Char) : Bool := c.isWhitespace

/-- Python `str.strip()`: drop whitespace from the front, then from the back. -/
def strip (s : List Char) : List Char := (s.dropWhile isSpace).rdropWhile isSpace

/-- Python `l[-k:]`: the last `k` elements (the whole list when its length
is at most `k`). -/
def lastN {α : Type} (k : Nat) (l : List α) : List α := (l.reverse.take k).reverse

/-- Python `str.lower()`, character-wise. -/
def toLowerStr (s : List Char) : List Char := s.map Char.toLower

/-! ## Text chunking for TTS (`_chunk_text_for_tts`, stream_processor.py
lines 1280-1320) -/

/-- The lookbehind class of `re.split(r'(?<=[\.\?\!\n])\s+', ...)`. -/
def sentenceEnd (c : Char) : Bool := c == '.' || c == '?' || c == '!' || c == '\n'

/-- Lookbehind on the previous character (`none` at the start of the string
and right after a consumed whitespace run, where the next character is
never whitespace). -/
def prevEnds : Option Char → Bool
  | some c => sentenceEnd c
  | none => false

/-- Scanner for `re.split(r'(?<=[\.\?\!\n])\s+', cleaned)`: each maximal
whitespace run whose first character is preceded by `.?!\n` is a split
point and is removed; `acc` is the current segment, reversed. -/
def splitSentencesAux (prev : Option Char) (acc : List Char) :
    List Char → List (List Char)
  | [] => [acc.reverse]
  | c :: rest =>
      if isSpace c && prevEnds prev then
        acc.reverse :: splitSentencesAux none [] (rest.dropWhile isSpace)
      else
        splitSentencesAux (some c) (c :: acc) rest
  termination_by l => l.length
  decreasing_by
  · have := (List.dropWhile_sublist (l := rest) isSpace).length_le
    simp only [List.length_cons]
    omega
  · simp

def splitSentences (s : List Char) : List (List Char) :=
  splitSentencesAux none [] s

/-- Hard split of an over-long sentence: the slices
`sentence[idx:idx+max_chars]` for `idx in range(0, len, max_chars)`, each
stripped, empties skipped.  `fuel` bounds the recursion (instantiated with
the sentence length, which suffices for `maxChars ≥ 1`; Python raises for
step 0 and the function is only called with `max_chars = 120`). -/
def hardSplitAux (maxChars : Nat) : Nat → List Char → List (List Char)
  | 0, _ => []
  | _, [] => []
  | fuel + 1, s =>
      let part := strip (s.take maxChars)
      (if part = [] then [] else [part]) ++ hardSplitAux maxChars fuel (s.drop maxChars)

def hardSplit (maxChars : Nat) (s : List Char) : List (List Char) :=
  hardSplitAux maxChars s.length s

/-- The sentence-accumulation loop of `_chunk_text_for_tts`: state is
`(chunks, buffer)`; each sentence is stripped, over-long sentences are hard
split (flushing the buffer first), otherwise the sentence is merged into the
buffer when the merge still fits in `maxChars` and the buffer is flushed
otherwise. -/
def chunkLoop (maxChars : Nat) (chunks : List (List Char)) (buffer : List Char) :
    List (List Char) → List (List Char) × List Char
  | [] => (chunks, buffer)
  | sentence :: rest =>
      let s := strip sentence
      if s = [] then
        chunkLoop maxChars chunks buffer rest
      else if maxChars < s.length then
        let chunks₁ := if buffer = [] then chunks else chunks ++ [strip buffer]
        chunkLoop maxChars (chunks₁ ++ hardSplit maxChars s) [] rest
      else
        let prospective := if buffer = [] then s else strip (buffer ++ ' ' :: s)
        if prospective.length ≤ maxChars then
          chunkLoop maxChars chunks prospective rest
        else
          let chunks₁ := if buffer = [] then chunks else chunks ++ [buffer]
          chunkLoop maxChars chunks₁ s rest

/-- `_chunk_text_for_tts(text, max_chars)`. -/
def chunk_text_for_tts (text : List Char) (maxChars : Nat) : List (List Char) :=
  let cleaned := strip text
  if cleaned = [] then []
  else if cleaned.length ≤ maxChars then [cleaned]
  else
    let st := chunkLoop maxChars [] [] (splitSentences cleaned)
    if st.2 = [] then st.1 else st.1 ++ [strip st.2]

/-- A chunk the loop may emit: stripped, non-empty, within the budget. -/
def GoodChunk (maxChars : Nat) (c : List Char) : Prop :=
  strip c = c ∧ c ≠ [] ∧ c.length ≤ maxChars

/-! ## Language normalization and decision (stream_processor.py lines
364-386, 443-475, 1133-1165, 1200-1212) -/

/-- Python `code.split('-')[0]`. -/
def primaryTag (code : List Char) : List Char := code.takeWhile (fun c => c ≠ '-')

/-- Python `(code.split('-')[0] or code).lower()`. -/
def normOr (code : List Char) : List Char :=
  toLowerStr (if primaryTag code = [] then code else primaryTag code)

/-- Python `code.split('-')[0].lower()` (no fallback to the whole code). -/
def normPlain (code : List Char) : List Char := toLowerStr (primaryTag code)

/-- `_first_valid_language`: first entry that is truthy and not `'auto'`. -/
def first_valid_language (langs : List (List Char)) : Option (List Char) :=
  langs.find? (fun l => decide (l ≠ [] ∧ l ≠ "auto".toList))

/-- Lines 364-369: the ASR hint — the normalized configured input when
concrete, otherwise `last_good_input or None`. -/
def forcedLang (inputLang : List Char) (lastGoodInput : Option (List Char)) :
    Option (List Char) :=
  if inputLang ≠ [] ∧ inputLang ≠ "auto".toList then some (normOr inputLang)
  else
    match lastGoodInput with
    | some s => if s = [] then none else some s
    | none => none

/-- Lines 378-386: when the input is `auto` and `speaks_pref` has a concrete
first entry differing from `(forced_lang or detected_lang)`, the detection is
replaced by that entry and its probability raised to at least `0.75`.
Returns the (possibly biased) `(detected_lang, language_probability)`. -/
def biasDetection (inputLang : List Char) (forced : Option (List Char))
    (speaksPref : List (List Char)) (rawDetected : List Char) (rawConf : ℚ) :
    List Char × ℚ :=
  if inputLang = [] ∨ inputLang = "auto".toList then
    match first_valid_language speaksPref with
    | some sp0 =>
        if sp0 ≠ forced.getD rawDetected then (sp0, max rawConf (3/4 : ℚ))
        else (rawDetected, rawConf)
    | none => (rawDetected, rawConf)
  else (rawDetected, rawConf)

/-- `_determine_speaker_language` (lines 1133-1165). -/
def determine_speaker_language (configuredInput : List Char)
    (detectedLang : Option (List Char)) (detectedConfidence : ℚ)
    (lastGoodInput : Option (List Char)) (speaksPref : List (List Char)) :
    List Char :=
  let configured := if configuredInput = [] then [] else normPlain configuredInput
  let detected :=
    match detectedLang with
    | some d => if d = [] then [] else normPlain d
    | none => []
  if configured ≠ [] ∧ configured ≠ "auto".toList then configured
  else if detected ≠ [] ∧ (7/10 : ℚ) ≤ detectedConfidence then detected
  else
    let lastGood := lastGoodInput.getD []
    if lastGood ≠ [] then normOr lastGood
    else
      match first_valid_language speaksPref with
      | some fb => normPlain fb
      | none => "en".toList

/-- `last_good_input or first_valid(speaks_pref) or 'en'` (line 453-457). -/
def fallbackChain (lastGoodInput : Option (List Char))
    (speaksPref : List (List Char)) : List Char :=
  let tailFb :=
    match first_valid_language speaksPref with
    | some f => f
    | none => "en".toList
  match lastGoodInput with
  | some s => if s = [] then tailFb else s
  | none => tailFb

/-- Post-decision guard (lines 450-465): under `auto` input, a truthy
detection and confidence `< 0.70`, replace a decision that differs from the
fallback chain by the normalized fallback. -/
def lowConfGuard (inputLang detectedLang : List Char) (conf : ℚ)
    (lastGoodInput : Option (List Char)) (speaksPref : List (List Char))
    (speakerLanguage : List Char) : List Char :=
  if (inputLang = "auto".toList ∨ inputLang = []) ∧ detectedLang ≠ [] ∧
      conf < 7/10 then
    let fallback := fallbackChain lastGoodInput speaksPref
    if speakerLanguage ≠ fallback then normOr fallback else speakerLanguage
  else speakerLanguage

/-- The complete language decision of `_process_audio_chunk` (lines 364-386
and 443-465): hint, speaks-pref biasing, `_determine_speaker_language` on the
normalized arguments and the low-confidence guard. -/
def chosenLanguage (inputLang rawDetected : List Char) (rawConf : ℚ)
    (lastGoodInput : Option (List Char)) (speaksPref : List (List Char)) :
    List Char :=
  let forced := forcedLang inputLang lastGoodInput
  let det := biasDetection inputLang forced speaksPref rawDetected rawConf
  let configuredArg :=
    if inputLang ≠ [] ∧ inputLang ≠ "auto".toList then normPlain inputLang
    else "auto".toList
  let detectedArg : Option (List Char) :=
    if det.1 = [] then none else some (normPlain det.1)
  let pre := determine_speaker_language configuredArg detectedArg det.2
    lastGoodInput speaksPref
  lowConfGuard inputLang det.1 det.2 lastGoodInput speaksPref pre

/-! ## Repetition guard (`_looks_repetitive`, stream_processor.py lines
268-290) and tokenization (`re.findall(r"\w+", text.lower())`, line 398) -/

/-- Python regex `\w` (restricted to the ASCII classes; the repository's
transcripts are tokenized the same way for any word-character predicate). -/
def isWordChar (c : Char) : Bool := c.isAlphanum || c == '_'

/-- Accumulator worker for `findWords`: `acc` holds the current run of word
characters, reversed. -/
def findWordsAux (acc : List Char) : List Char → List (List Char)
  | [] => if acc = [] then [] else [acc.reverse]
  | c :: rest =>
      if isWordChar c then findWordsAux (c :: acc) rest
      else if acc = [] then findWordsAux [] rest
      else acc.reverse :: findWordsAux [] rest

/-- `re.findall(r"\w+", s)`: the maximal runs of word characters. -/
def findWords (s : List Char) : List (List Char) := findWordsAux [] s

/-- `Counter(l).most_common(1)[0][1]`: the highest multiplicity in `l`. -/
def topCount {α : Type} [DecidableEq α] (l : List α) : Nat :=
  (l.map (fun x => l.count x)).foldr max 0

/-- `_looks_repetitive(tokens)` (only the boolean component is consumed by
the pipeline; the accompanying `top_word`/`top_frac` diagnostics feed a log
line).  Fractions are exact rationals; `max(1, len)` guards mirror the
source. -/
def looks_repetitive (tokens : List (List Char)) : Bool :=
  if tokens = [] then false
  else
    let n := tokens.length
    let uniqFrac : ℚ := (tokens.dedup.length : ℚ) / ((max 1 n : Nat) : ℚ)
    let topFrac : ℚ := ((topCount tokens : Nat) : ℚ) / ((max 1 n : Nat) : ℚ)
    let bigrams := tokens.zip tokens.tail
    let topBigramFrac : ℚ :=
      if bigrams = [] then 0
      else ((topCount bigrams : Nat) : ℚ) / ((max 1 bigrams.length : Nat) : ℚ)
    decide ((30 ≤ n ∧ (3/10 : ℚ) ≤ topFrac) ∨
            (40 ≤ n ∧ uniqFrac ≤ 45/100) ∨
            (24 ≤ n ∧ (2/5 : ℚ) ≤ topBigramFrac))

/-! ## Per-speaker pipeline state and the post-ASR processing path
(stream_processor.py lines 292-591, 1023-1087) -/

/-- Entry of `self.user_languages[user_id]`. -/
structure UserConfig where
  input : List Char
  output : List Char
  roomId : List Char
  speaksPref : List (List Char)
  understandsPref : List (List Char)
  lastGoodInput : Option (List Char)
  lastDetectedLanguage : Option (List Char)
  deriving Repr, DecidableEq

/-- A scheduled `_translation_delivery` job (`_schedule_translation_job`
arguments that identify its payload). -/
structure TranslationJob where
  text : List Char
  speakerLanguage : List Char
  detectedLang : List Char
  detectedConf : ℚ
  deriving Repr, DecidableEq

/-- The per-speaker slice of the processor's dictionaries.  A `none` models
a missing key (`dict.pop`).  `lastSentForSpeaker` collects the
`_last_sent_translations` entries whose key starts with this speaker, keyed
by `(listener, target_language)`. -/
structure SpeakerState where
  rollingBuffer : Option (List Nat)
  lastTranscript : Option (List Char × ℚ)
  hadFirstTranscript : Bool
  speaking : Bool
  silenceAccMs : ℚ
  emptyAsrStreak : Nat
  lastSentForSpeaker : List ((Nat × List Char) × List Char)
  pending : Option (List Char)
  pendingStartedAt : Option ℚ
  lastDetectedState : Option (List Char × List Char × ℚ × ℚ)
  muted : Bool
  cfg : Option UserConfig
  deriving Repr, DecidableEq

/-- `int(16000 * (200.0/1000.0) * 2)` — the ~200 ms context tail. -/
def contextTailBytes : Nat := 6400

/-- `int(16000 * 3.0 * 2)` — the 3 s rolling-buffer cap. -/
def rollingMaxBytes : Nat := 96000

def max_tts_chars : Nat := 120

def pending_timeout_ms : ℚ := 3500

def pending_min_chars : Nat := 40

def pending_max_chars : Nat := 150

/-- `_trim_rolling_buffer` (lines 1076-1087) on the buffer cell: keep only
the last `context_tail_ms` of audio; no-op on a missing (`if not buf`) or
empty buffer.  (The `tail_bytes <= 0` branch of the source is unreachable at
the fixed `context_tail_ms = 200.0`.) -/
def bufTrimContext : Option (List Nat) → Option (List Nat)
  | none => none
  | some buf =>
      if buf = [] then some buf
      else if contextTailBytes < buf.length then
        some (lastN contextTailBytes buf)
      else some buf

/-- `_trim_rolling_buffer` on the speaker state. -/
def trim_rolling_buffer (st : SpeakerState) : SpeakerState :=
  { st with rollingBuffer := bufTrimContext st.rollingBuffer }

/-- `_flush_pending_translation` (lines 1042-1074): pop and strip the pending
transcript; nothing to do when empty; fail (content already discarded) when
the detection state or the room is missing; otherwise schedule a delivery
job carrying the text and the last detection snapshot. -/
def flush_pending_translation (st : SpeakerState) :
    SpeakerState × Option TranslationJob × Bool :=
  let text := strip (st.pending.getD [])
  let st1 := { st with pending := none, pendingStartedAt := none }
  if text = [] then (st1, none, true)
  else
    match st.lastDetectedState, st.cfg with
    | some (spLang, detLang, conf, _ts), some cfg =>
        if cfg.roomId = [] then (st1, none, false)
        else (st1, some ⟨text, spLang, detLang, conf⟩, true)
    | _, _ => (st1, none, false)

/-- `_reset_context_for_silence` (lines 1023-1040): flush the pending
transcript first, then drop the rolling buffer, the duplicate window, the
first-transcript flag, the speaking flag, both anomaly counters and every
`_last_sent_translations` entry of this speaker, and finally trim the (now
missing) rolling buffer. -/
def reset_context_for_silence (st : SpeakerState) :
    SpeakerState × Option TranslationJob :=
  let fr := flush_pending_translation st
  let st2 := { fr.1 with
    rollingBuffer := none
    lastTranscript := none
    hadFirstTranscript := false
    speaking := false
    silenceAccMs := 0
    emptyAsrStreak := 0
    lastSentForSpeaker := [] }
  (trim_rolling_buffer st2, fr.2.1)

/-- The empty/noise transcript list of line 390. -/
def noiseTexts : List (List Char) :=
  ["...".toList, ".".toList, ",".toList, "?".toList, "!".toList, "  ".toList]

/-- `any(p in transcribed_text for p in (".", "!", "?", "…"))`. -/
def hasSentenceEndChar (c : Char) : Bool :=
  c == '.' || c == '!' || c == '?' || c == '…'

/-- `_buffer_and_maybe_translate` (lines 521-587): flush on a changed
language snapshot, record the new snapshot, append the transcript to the
pending buffer (space separated, stripped) and flush when a sentence end
plus enough characters, a timeout with enough characters, or the size cap
is reached.  Returns the new state and the scheduled jobs in order. -/
def buffer_and_maybe_translate (st : SpeakerState) (speakerLanguage : List Char)
    (transcribedText : List Char) (detectedLang : List Char)
    (detectedConf : ℚ) (now : ℚ) : SpeakerState × List TranslationJob :=
  let flushed :=
    match st.lastDetectedState with
    | some (lastSp, lastDet, _c, _t) =>
        if lastSp ≠ speakerLanguage ∨ lastDet ≠ detectedLang then
          let fr := flush_pending_translation st
          (fr.1, fr.2.1.toList)
        else (st, [])
    | none => (st, [])
  let st2 := { flushed.1 with
    lastDetectedState := some (speakerLanguage, detectedLang, detectedConf, now) }
  let pendingOld : List Char := st2.pending.getD []
  let st3 :=
    if pendingOld = [] then { st2 with pendingStartedAt := some now } else st2
  let pendingNew :=
    strip (pendingOld ++ (if pendingOld = [] then [] else [' ']) ++ transcribedText)
  let st4 := { st3 with pending := some pendingNew }
  let startTs := st4.pendingStartedAt.getD now
  let elapsedMs := (now - startTs) * 1000
  let hasSentenceEnd := transcribedText.any hasSentenceEndChar
  let bufferLen := pendingNew.length
  let shouldFlush :=
    (pending_min_chars ≤ bufferLen ∧ hasSentenceEnd = true) ∨
    (pending_timeout_ms ≤ elapsedMs ∧ 15 ≤ bufferLen) ∨
    pending_max_chars ≤ bufferLen
  if shouldFlush then
    let fr := flush_pending_translation st4
    (fr.1, flushed.2 ++ fr.2.1.toList)
  else (st4, flushed.2)

/-- Observable outcome of one `_process_audio_chunk` call after the ASR
stage. -/
structure ProcessResult where
  state : SpeakerState
  resetReason : Option (List Char)
  partialText : Option (List Char)
  jobs : List TranslationJob
  deriving Repr, DecidableEq

/-- The post-ASR part of `_process_audio_chunk` (lines 378-516): speaks-pref
biasing of the detection, empty/noise filtering with the empty-ASR streak,
the repetition (hallucination) guard, the length cap, duplicate suppression,
the language decision, the `last_good_input`/`last_detected_language`
update, the mute gate, the `partial_transcript` broadcast and transcript
aggregation. -/
def process_transcript (st : SpeakerState) (rawText rawDetected : List Char)
    (rawConf : ℚ) (now : ℚ) : ProcessResult :=
  match st.cfg with
  | none => ⟨st, none, none, []⟩
  | some cfg =>
    let inputLang := cfg.input
    let forced := forcedLang inputLang cfg.lastGoodInput
    let det := biasDetection inputLang forced cfg.speaksPref rawDetected rawConf
    let detectedLang := det.1
    let detectedConf := det.2
    let text0 := strip rawText
    if text0 = [] ∨ text0 ∈ noiseTexts then
      let streak := st.emptyAsrStreak + 1
      let st1 := { st with emptyAsrStreak := streak }
      if 3 ≤ streak then
        let r := reset_context_for_silence st1
        ⟨r.1, some "repeated empty ASR".toList, none, r.2.toList⟩
      else ⟨st1, none, none, []⟩
    else
      let st1 := { st with emptyAsrStreak := 0 }
      let tokens := findWords (toLowerStr text0)
      if tokens ≠ [] ∧ looks_repetitive tokens = true then
        let r := reset_context_for_silence st1
        ⟨r.1, some "hallucinated repetition".toList, none, r.2.toList⟩
      else
        let text1 := text0.take (2 * max_tts_chars)
        let lastT := st1.lastTranscript.getD ([], 0)
        if toLowerStr text1 = toLowerStr lastT.1 ∧ now - lastT.2 < 3/2 then
          ⟨st1, none, none, []⟩
        else
          let st2 := trim_rolling_buffer
            { st1 with lastTranscript := some (text1, now) }
          let st3 := { st2 with hadFirstTranscript := true }
          let speakerLanguage0 := determine_speaker_language
            (if inputLang ≠ [] ∧ inputLang ≠ "auto".toList then
              normPlain inputLang else "auto".toList)
            (if detectedLang = [] then none else some (normPlain detectedLang))
            detectedConf cfg.lastGoodInput cfg.speaksPref
          let speakerLanguage := lowConfGuard inputLang detectedLang
            detectedConf cfg.lastGoodInput cfg.speaksPref speakerLanguage0
          let cfg1 := { cfg with
            lastDetectedLanguage := some speakerLanguage
            lastGoodInput :=
              if inputLang ≠ [] ∧ inputLang ≠ "auto".toList then
                some (normOr inputLang)
              else if (7/10 : ℚ) ≤ detectedConf ∧ detectedLang ≠ [] then
                some (normOr detectedLang)
              else cfg.lastGoodInput }
          let st4 := { st3 with cfg := some cfg1 }
          if st4.muted then ⟨st4, none, none, []⟩
          else
            let bt := buffer_and_maybe_translate st4 speakerLanguage text1
              detectedLang detectedConf now
            ⟨bt.1, none, some text1, bt.2⟩

/-! ## Recognizer post-processing (`WhisperService.transcribe`,
ml/asr/whisper_service.py lines 230-279) -/

/-- The fields of faster-whisper's `TranscriptionInfo` consumed by the
service. -/
structure TranscriptionInfo where
  language : List Char
  language_probability : ℚ
  deriving Repr, DecidableEq

/-- The `(text, detected_lang, metadata)` triple returned by `transcribe`
(only the metadata fields derived from the hint and the model info). -/
structure TranscribeResult where
  text : List Char
  detected_lang : List Char
  meta_language : List Char
  meta_language_probability : ℚ
  deriving Repr, DecidableEq

/-- Lines 237-272 of `transcribe`, after segment collection: when a truthy
`language` hint was supplied, `detected_lang` is set to the hint, and the
`isinstance(info, dict)` branch that would also set
`info['language_probability'] = 1.0` is skipped because faster-whisper's
`info` is a `TranscriptionInfo` object, never a `dict`; the metadata then
reports `getattr(info, 'language_probability', 0.0)` — the raw model
probability. -/
def transcribe_post (hint : Option (List Char)) (info : TranscriptionInfo)
    (cleanedText : List Char) : TranscribeResult :=
  let detected :=
    match hint with
    | some l => if l = [] then info.language else l
    | none => info.language
  ⟨cleanedText, detected, detected, info.language_probability⟩

/-! ## Per-listener delta delivery (`_translation_delivery`,
stream_processor.py lines 954-992) -/

/-- Per-`(speaker, listener, target)` delivery state: the
`_last_sent_translations` entry and the concatenation of the `text` fields
of the `translated_audio` messages received so far. -/
structure DeliveryState where
  lastSent : List Char
  received : List Char
  deriving Repr, DecidableEq

/-- Python `full.startswith(pre)`. -/
def startsWith (pre s : List Char) : Bool := s.take pre.length == pre

/-- Line 956: `full_translation[len(last_sent):] if
full_translation.startswith(last_sent) else full_translation`. -/
def deliveryDelta (st : DeliveryState) (full : List Char) : List Char :=
  if startsWith st.lastSent full then full.drop st.lastSent.length else full

/-- Lines 954-992 for one flush and one listener: a delta that strips to
empty is skipped (`continue`, line 958-959), as is a delta whose synthesis
produced no audio (`if not target_audio: continue`, lines 971-977, modelled
by `synthOk = false`); only after a successful send is `last_sent` advanced
to the full translation (line 992) and the delta text delivered. -/
def delivery_step (st : DeliveryState) (full : List Char) (synthOk : Bool) :
    DeliveryState :=
  let delta := deliveryDelta st full
  if strip delta = [] then st
  else if synthOk then { lastSent := full, received := st.received ++ delta }
  else st

def delivery_run (st : DeliveryState) :
    List (List Char × Bool) → DeliveryState
  | [] => st
  | (full, ok) :: rest => delivery_run (delivery_step st full ok) rest

/-- The cumulative-translation hypothesis: at each step the incoming full
translation extends the `last_sent` text recorded at that point. -/
def chainOK (st : DeliveryState) : List (List Char × Bool) → Bool
  | [] => true
  | (full, ok) :: rest =>
      startsWith st.lastSent full && chainOK (delivery_step st full ok) rest

/-! ## Sequence counters (`_send_translated_audio`, stream_processor.py
lines 778-818, and the operations that clear per-speaker state:
`_check_end_of_speech` lines 239-262, `_reset_context_for_silence` lines
1023-1040, `stop_processing` lines 144-177) -/

/-- The processor operations relevant to `_seq_counters` and
`_last_sent_translations`.  In the source, only `_send_translated_audio`
ever touches `_seq_counters`; the reset, stop and start operations pop other
per-user dictionaries (the two reset operations clear the speaker's
`_last_sent_translations` keys). -/
inductive ProcOp where
  | sendAudio (speaker listener : Nat)
  | endOfSpeechReset (speaker : Nat)
  | contextReset (speaker : Nat)
  | stopProcessing (speaker : Nat)
  | startProcessing (speaker : Nat)
  deriving Repr, DecidableEq

/-- A `translated_audio` message restricted to its ordering fields. -/
structure AudioMsg where
  speaker : Nat
  listener : Nat
  seq : Nat
  deriving Repr, DecidableEq

/-- `_seq_counters` (missing key reads as 0, `get(seq_key, 0)`) and
`_last_sent_translations` keyed `(speaker, listener, language)`. -/
structure ProcState where
  seqCounters : Nat × Nat → Nat
  lastSent : Nat × Nat × List Char → Option (List Char)

def procInit : ProcState := ⟨fun _ => 0, fun _ => none⟩

/-- One serialized operation (per-speaker delivery jobs are serialized by
`_translation_semaphores[user]`, an `asyncio.Semaphore(1)`, lines 858-859,
and the counter read-increment-store at lines 794-796 contains no await, so
operations interleave atomically). -/
def procStep (st : ProcState) : ProcOp → ProcState × Option AudioMsg
  | .sendAudio sp li =>
      let seq := st.seqCounters (sp, li) + 1
      ({ st with seqCounters :=
          fun k => if k = (sp, li) then seq else st.seqCounters k },
       some ⟨sp, li, seq⟩)
  | .endOfSpeechReset sp =>
      ({ st with lastSent := fun k => if k.1 = sp then none else st.lastSent k },
       none)
  | .contextReset sp =>
      ({ st with lastSent := fun k => if k.1 = sp then none else st.lastSent k },
       none)
  | .stopProcessing _ => (st, none)
  | .startProcessing _ => (st, none)

def procRun (st : ProcState) : List ProcOp → ProcState × List AudioMsg
  | [] => (st, [])
  | op :: rest =>
      let r1 := procStep st op
      let r2 := procRun r1.1 rest
      (r2.1, r1.2.toList ++ r2.2)

/-- The `seq` values of the messages sent from `sp` to `li`, in send
order. -/
def seqsFor (sp li : Nat) (msgs : List AudioMsg) : List Nat :=
  (msgs.filter (fun m => decide (m.speaker = sp ∧ m.listener = li))).map
    AudioMsg.seq

/-! ## Rolling-buffer bound (`_process_audio_loop` lines 200-206 and the
buffer-clearing operations) -/

/-- The operations that touch `_rolling_buffers[user]`. -/
inductive BufOp where
  | appendFrames (newBytes : List Nat)
  | trimContext
  | silenceReset
  | endOfSpeech
  | stopProcessing
  deriving Repr, DecidableEq

/-- Effect of each operation on the buffer cell: `appendFrames` is lines
200-206 (concatenate, then keep the last `max_bytes`); `trimContext` is
`_trim_rolling_buffer`; the remaining operations pop the buffer. -/
def bufStep (buf : Option (List Nat)) : BufOp → Option (List Nat)
  | .appendFrames newBytes =>
      let b := buf.getD [] ++ newBytes
      some (if rollingMaxBytes < b.length then lastN rollingMaxBytes b else b)
  | .trimContext => bufTrimContext buf
  | .silenceReset => none
  | .endOfSpeech => none
  | .stopProcessing => none

def bufRun (buf : Option (List Nat)) : List BufOp → Option (List Nat)
  | [] => buf
  | op :: rest => bufRun (bufStep buf op) rest

def bufLen (buf : Option (List Nat)) : Nat := (buf.getD []).length

/-! ## Connection registry (`ConnectionManager`,
websocket_manager.py lines 14-121) -/

/-- A websocket channel: an identifier and whether `send_json` succeeds on
it. -/
structure Chan where
  id : Nat
  ok : Bool
  deriving Repr, DecidableEq

/-- `active_connections`, `room_connections` and `user_rooms`. -/
structure ConnState where
  active : Nat → Option (List Chan)
  rooms : List Char → Option (List Nat)
  userRooms : Nat → Option (List Char)

/-- `disconnect` (lines 37-54): under a truthy recorded room, remove the
user from the room's member list (first occurrence), delete the room entry
if the list became empty, and drop the user-to-room record; in every case
drop all the user's channels. -/
def disconnect (st : ConnState) (u : Nat) : ConnState :=
  let st1 :=
    match st.userRooms u with
    | some roomId =>
        if roomId = [] then st
        else
          match st.rooms roomId with
          | some users =>
              let users1 := if u ∈ users then users.erase u else users
              { st with
                rooms := fun r =>
                  if r = roomId then
                    (if users1 = [] then none else some users1)
                  else st.rooms r
                userRooms := fun v => if v = u then none else st.userRooms v }
          | none =>
              { st with
                userRooms := fun v => if v = u then none else st.userRooms v }
    | none => st
  { st1 with active := fun v => if v = u then none else st1.active v }

/-- Result of `_safe_send`: the new registry state, the ids of the channels
the payload was delivered on (kept, in order) and the ids of the failed
channels (closed and removed). -/
structure SendResult where
  state : ConnState
  delivered : List Nat
  closed : List Nat

/-- `_safe_send` (lines 56-76): try every channel of the user; keep the
survivors; if none survive, `disconnect` the user. -/
def safe_send (st : ConnState) (u : Nat) : SendResult :=
  let sockets := (st.active u).getD []
  if sockets = [] then ⟨st, [], []⟩
  else
    let alive := sockets.filter (fun c => c.ok)
    let failed := sockets.filter (fun c => !c.ok)
    if alive ≠ [] then
      ⟨{ st with active := fun v => if v = u then some alive else st.active v },
       alive.map Chan.id, failed.map Chan.id⟩
    else
      ⟨disconnect st u, [], failed.map Chan.id⟩

/-! # Theorems -/

/-! ## PCM decoding lemmas and C9 -/

theorem int16OfBytes_bounds (lo hi : Nat) :
    -32768 ≤ int16OfBytes lo hi ∧ int16OfBytes lo hi ≤ 32767 := by
  unfold int16OfBytes
  have hu : (lo + 256 * hi) % 65536 < 65536 := Nat.mod_lt _ (by norm_num)
  set u := (lo + 256 * hi) % 65536 with hu_def
  by_cases h : u < 32768
  · simp only [h, if_pos]
    constructor
    · exact le_trans (by norm_num) (Int.ofNat_nonneg u)
    · exact_mod_cast Nat.le_of_lt_succ h
  · simp only [h, if_neg, not_false_iff]
    constructor
    · have : (32768 : Nat) ≤ u := Nat.le_of_not_lt h
      omega
    · omega

theorem int16Samples_length : (bs : List Nat) →
    (int16Samples bs).length = bs.length / 2
  | [] => rfl
  | [_] => by simp [int16Samples]
  | lo :: hi :: rest => by
      simp only [int16Samples, List.length_cons, int16Samples_length rest]
      omega

theorem int16Samples_mem_bounds : (bs : List Nat) →
    ∀ v ∈ int16Samples bs, -32768 ≤ v ∧ v ≤ 32767
  | [] => by intro v hv; simp [int16Samples] at hv
  | [_] => by intro v hv; simp [int16Samples] at hv
  | lo :: hi :: rest => by
      intro v hv
      simp only [int16Samples, List.mem_cons] at hv
      rcases hv with h | h
      · exact h ▸ int16OfBytes_bounds lo hi
      · exact int16Samples_mem_bounds rest v h

/-- C9: `_bytes_to_audio_array` is total and bounded: for every byte string
(empty and odd-length included, the final odd byte being dropped) it returns
exactly `⌊len/2⌋` samples, each equal to an int16 value divided by 32768 and
hence lying in the closed interval `[-1, 1]`. -/
theorem C9_bytes_to_audio_array_total_bounded (audioData : List Nat) :
    (bytes_to_audio_array audioData).length = audioData.length / 2 ∧
    (∀ s ∈ bytes_to_audio_array audioData, -1 ≤ s ∧ s ≤ 1) ∧
    bytes_to_audio_array audioData
      = (int16Samples audioData).map sampleOfInt16 := by
  refine ⟨?_, ?_, rfl⟩
  · unfold bytes_to_audio_array
    rw [List.length_map]
    exact int16Samples_length audioData
  · intro s hs
    unfold bytes_to_audio_array at hs
    rw [List.mem_map] at hs
    obtain ⟨v, hv, hvs⟩ := hs
    obtain ⟨hlo, hhi⟩ := int16Samples_mem_bounds audioData v hv
    subst hvs
    unfold sampleOfInt16
    constructor
    · rw [le_div_iff₀ (by norm_num : (0:ℚ) < 32768)]
      have : (-32768 : ℚ) ≤ (v : ℚ) := by exact_mod_cast hlo
      linarith
    · rw [div_le_one (by norm_num : (0:ℚ) < 32768)]
      have : (v : ℚ) ≤ 32767 := by exact_mod_cast hhi
      linarith

/-! ## `strip` lemmas -/

theorem rdropWhile_append_eq (p : Char → Bool) (l : List Char) :
    ∃ u, l.rdropWhile p ++ u = l := by
  obtain ⟨t, ht⟩ := List.dropWhile_suffix (l := l.reverse) p
  refine ⟨t.reverse, ?_⟩
  have h := congrArg List.reverse ht
  simpa [List.rdropWhile] using h

theorem rdropWhile_length_le (p : Char → Bool) (l : List Char) :
    (l.rdropWhile p).length ≤ l.length := by
  obtain ⟨u, hu⟩ := rdropWhile_append_eq p l
  have := congrArg List.length hu
  simp only [List.length_append] at this
  omega

theorem dropWhile_length_le (p : Char → Bool) (l : List Char) :
    (l.dropWhile p).length ≤ l.length :=
  ((List.dropWhile_sublist p).length_le)

theorem strip_length_le (s : List Char) : (strip s).length ≤ s.length :=
  le_trans (rdropWhile_length_le _ _) (dropWhile_length_le _ _)

theorem dropWhile_rdropWhile_self (p : Char → Bool) (l : List Char) :
    ((l.dropWhile p).rdropWhile p).dropWhile p = (l.dropWhile p).rdropWhile p := by
  cases hB : (l.dropWhile p).rdropWhile p with
  | nil => simp
  | cons b B =>
      obtain ⟨u, hu⟩ := rdropWhile_append_eq p (l.dropWhile p)
      rw [hB] at hu
      have hAne : l.dropWhile p ≠ [] := by rw [← hu]; simp
      have hhead : (l.dropWhile p).head? = some b := by rw [← hu]; rfl
      have hnp : p b = false := by
        have h := List.head_dropWhile_not p l hAne
        have h2 := List.head?_eq_head hAne
        rw [hhead] at h2
        have h3 : (l.dropWhile p).head hAne = b := by
          exact (Option.some.injEq _ _ ▸ h2.symm :)
        rwa [h3] at h
      simp [List.dropWhile_cons, hnp]

theorem strip_idem (s : List Char) : strip (strip s) = strip s := by
  unfold strip
  rw [dropWhile_rdropWhile_self, List.rdropWhile_idempotent]

theorem strip_nil : strip [] = [] := rfl

/-! ## C10: TTS chunking -/

theorem hardSplitAux_good (maxChars fuel : Nat) (s : List Char) :
    ∀ c ∈ hardSplitAux maxChars fuel s, GoodChunk maxChars c := by
  induction fuel generalizing s with
  | zero => intro c hc; simp [hardSplitAux] at hc
  | succ n ih =>
      intro c hc
      cases s with
      | nil => simp [hardSplitAux] at hc
      | cons a t =>
          simp only [hardSplitAux, List.mem_append] at hc
          rcases hc with hc | hc
          · by_cases hp : strip ((a :: t).take maxChars) = []
            · simp [hp] at hc
            · rw [if_neg hp, List.mem_singleton] at hc
              subst hc
              refine ⟨strip_idem _, hp, ?_⟩
              calc (strip ((a :: t).take maxChars)).length
                  ≤ ((a :: t).take maxChars).length := strip_length_le _
                _ ≤ maxChars := by simp [List.length_take]
          · exact ih _ c hc

theorem chunkLoop_good (maxChars : Nat) (sentences : List (List Char)) :
    ∀ chunks buffer,
      (∀ c ∈ chunks, GoodChunk maxChars c) →
      strip buffer = buffer → buffer.length ≤ maxChars →
      (∀ c ∈ (chunkLoop maxChars chunks buffer sentences).1, GoodChunk maxChars c) ∧
      strip (chunkLoop maxChars chunks buffer sentences).2
        = (chunkLoop maxChars chunks buffer sentences).2 ∧
      (chunkLoop maxChars chunks buffer sentences).2.length ≤ maxChars := by
  induction sentences with
  | nil =>
      intro chunks buffer hchunks hbuf hlen
      exact ⟨hchunks, hbuf, hlen⟩
  | cons sentence rest ih =>
      intro chunks buffer hchunks hbuf hlen
      by_cases hs : strip sentence = []
      · simpa [chunkLoop, hs] using ih chunks buffer hchunks hbuf hlen
      · by_cases hlong : maxChars < (strip sentence).length
        · have hgood₁ : ∀ c ∈ (if buffer = [] then chunks else chunks ++ [strip buffer])
              ++ hardSplit maxChars (strip sentence), GoodChunk maxChars c := by
            intro c hc
            rcases List.mem_append.mp hc with hc | hc
            · by_cases hb : buffer = []
              · rw [if_pos hb] at hc
                exact hchunks c hc
              · rw [if_neg hb] at hc
                rcases List.mem_append.mp hc with hc | hc
                · exact hchunks c hc
                · rw [List.mem_singleton] at hc
                  subst hc
                  rw [hbuf]
                  exact ⟨hbuf, hb, hlen⟩
            · exact hardSplitAux_good _ _ _ c hc
          have h := ih _ [] hgood₁ strip_nil (Nat.zero_le _)
          simpa [chunkLoop, hs, hlong] using h
        · by_cases hfit :
            (if buffer = [] then strip sentence
             else strip (buffer ++ ' ' :: strip sentence)).length ≤ maxChars
          · have hpro : strip (if buffer = [] then strip sentence
                else strip (buffer ++ ' ' :: strip sentence))
              = (if buffer = [] then strip sentence
                else strip (buffer ++ ' ' :: strip sentence)) := by
              by_cases hb : buffer = [] <;> simp [hb, strip_idem]
            have h := ih chunks _ hchunks hpro hfit
            simpa [chunkLoop, hs, hlong, hfit] using h
          · have hgood₁ : ∀ c ∈ (if buffer = [] then chunks else chunks ++ [buffer]),
                GoodChunk maxChars c := by
              intro c hc
              by_cases hb : buffer = []
              · rw [if_pos hb] at hc
                exact hchunks c hc
              · rw [if_neg hb] at hc
                rcases List.mem_append.mp hc with hc | hc
                · exact hchunks c hc
                · rw [List.mem_singleton] at hc
                  subst hc
                  exact ⟨hbuf, hb, hlen⟩
            have h := ih _ (strip sentence) hgood₁ (strip_idem _) (Nat.le_of_not_lt hlong)
            simpa [chunkLoop, hs, hlong, hfit] using h

/-- C10 (amended): with `max_chars > 0`, every chunk returned by
`_chunk_text_for_tts` is non-empty after stripping and no longer than
`max_chars`; when the stripped input is non-empty and fits in `max_chars`
the result is exactly the singleton of the stripped input; when the
stripped input is empty the result is empty (not a singleton). -/
theorem C10_chunk_text_for_tts_bounds (text : List Char) (maxChars : Nat)
    (_hmc : 0 < maxChars) :
    (∀ c ∈ chunk_text_for_tts text maxChars, strip c ≠ [] ∧ c.length ≤ maxChars) ∧
    (strip text ≠ [] → (strip text).length ≤ maxChars →
      chunk_text_for_tts text maxChars = [strip text]) ∧
    (strip text = [] → chunk_text_for_tts text maxChars = []) := by
  refine ⟨?_, ?_, ?_⟩
  · intro c hc
    unfold chunk_text_for_tts at hc
    by_cases h0 : strip text = []
    · simp [h0] at hc
    · by_cases h1 : (strip text).length ≤ maxChars
      · simp only [h0, h1, if_neg, if_pos, not_false_iff, List.mem_singleton] at hc
        subst hc
        exact ⟨by rw [strip_idem]; exact h0, h1⟩
      · have h := chunkLoop_good maxChars (splitSentences (strip text)) [] []
          (by intro c hc; simp at hc) strip_nil (Nat.zero_le _)
        obtain ⟨hall, hbs, hbl⟩ := h
        simp only [h0, h1, if_neg, not_false_iff] at hc
        set st := chunkLoop maxChars [] [] (splitSentences (strip text))
        by_cases hb : st.2 = []
        · rw [if_pos hb] at hc
          obtain ⟨hstr, hne, hle⟩ := hall c hc
          exact ⟨by rw [hstr]; exact hne, hle⟩
        · rw [if_neg hb] at hc
          rcases List.mem_append.mp hc with hc | hc
          · obtain ⟨hstr, hne, hle⟩ := hall c hc
            exact ⟨by rw [hstr]; exact hne, hle⟩
          · rw [List.mem_singleton] at hc
            subst hc
            rw [hbs]
            exact ⟨by rw [hbs]; exact hb, hbl⟩
  · intro hne hle
    unfold chunk_text_for_tts
    simp [hne, hle]
  · intro h0
    unfold chunk_text_for_tts
    simp [h0]

/-- Witness for C10 at a concrete input: all hypotheses hold at
`text = " hello world. "`, `max_chars = 20`, and the singleton case fires. -/
theorem C10_chunk_text_for_tts_bounds_witness :
    0 < 20 ∧
    chunk_text_for_tts " hello world. ".toList 20 = [strip " hello world. ".toList] :=
  ⟨by decide,
   (C10_chunk_text_for_tts_bounds " hello world. ".toList 20 (by decide)).2.1
     (by decide) (by decide)⟩

/-- Counterexample to C10 as stated: for whitespace-only input the stripped
text is empty (length `0 ≤ max_chars`), yet the result is `[]`, not the
singleton of the stripped input. -/
theorem C10_counterexample :
    (strip " ".toList).length ≤ 5 ∧
    chunk_text_for_tts " ".toList 5 ≠ [strip " ".toList] := by
  constructor
  · decide
  · decide

/-! ## C5: recognizer hint contract -/

/-- C5 (code-bug evaluation): with a concrete hint the returned
`detected_lang` equals the hint, but the returned metadata keeps the model's
raw `language_probability` (here 0.3) instead of 1, because the
`isinstance(info, dict)` guard of the assignment `info['language_probability']
= 1.0` never holds for faster-whisper's `TranscriptionInfo` object. -/
theorem C5_hint_probability_bug :
    (transcribe_post (some "pt".toList) ⟨"en".toList, 3/10⟩ "ola".toList).detected_lang
      = "pt".toList ∧
    (transcribe_post (some "pt".toList) ⟨"en".toList, 3/10⟩ "ola".toList).meta_language_probability
      = 3/10 ∧
    ((3/10 : ℚ) = 1 → False) := by
  refine ⟨rfl, rfl, by norm_num⟩

/-! ## C2: delta computation and reconstruction -/

theorem startsWith_append (pre s : List Char) (h : startsWith pre s = true) :
    pre ++ s.drop pre.length = s := by
  unfold startsWith at h
  have h' : s.take pre.length = pre := by simpa using h
  conv_rhs => rw [← List.take_append_drop pre.length s]
  rw [h']

theorem delivery_step_inv (st : DeliveryState) (full : List Char) (ok : Bool)
    (hst : st.received = st.lastSent)
    (hsw : startsWith st.lastSent full = true) :
    (delivery_step st full ok).received = (delivery_step st full ok).lastSent := by
  unfold delivery_step
  by_cases hd : strip (deliveryDelta st full) = []
  · rw [if_pos hd]; exact hst
  · rw [if_neg hd]
    cases ok with
    | false => simpa using hst
    | true =>
        show st.received ++ deliveryDelta st full = full
        rw [hst]
        unfold deliveryDelta
        rw [if_pos hsw]
        exact startsWith_append _ _ hsw

theorem delivery_run_inv (tr : List (List Char × Bool)) :
    ∀ st : DeliveryState, st.received = st.lastSent → chainOK st tr = true →
      (delivery_run st tr).received = (delivery_run st tr).lastSent := by
  induction tr with
  | nil => intro st h _; exact h
  | cons p rest ih =>
      obtain ⟨full, ok⟩ := p
      intro st hst hchain
      simp only [chainOK, Bool.and_eq_true] at hchain
      obtain ⟨hsw, hchain⟩ := hchain
      simp only [delivery_run]
      exact ih _ (delivery_step_inv st full ok hst hsw) hchain

/-- C2: the delta sent to a `(speaker, listener, target)` triple is the
suffix of the full translation past the recorded `last_sent_text` when the
former extends the latter, else the whole translation; a delta whose
stripped form is empty is skipped without sending or updating; only a
successful send advances `last_sent_text` to the full translation and
appends the delta to the listener's received text; and in any run whose
full translations each extend the `last_sent_text` recorded at their point
(cumulative translations), the concatenation of received `text` fields
equals the last delivered full translation — no overlap, no skipped
content. -/
theorem C2_delta_delivery (st : DeliveryState) (full : List Char) (ok : Bool)
    (tr : List (List Char × Bool)) (hchain : chainOK ⟨[], []⟩ tr = true) :
    (startsWith st.lastSent full = true →
      deliveryDelta st full = full.drop st.lastSent.length) ∧
    (startsWith st.lastSent full = false → deliveryDelta st full = full) ∧
    (strip (deliveryDelta st full) = [] → delivery_step st full ok = st) ∧
    (strip (deliveryDelta st full) ≠ [] →
      (delivery_step st full true).lastSent = full ∧
      (delivery_step st full true).received
        = st.received ++ deliveryDelta st full ∧
      delivery_step st full false = st) ∧
    (delivery_run ⟨[], []⟩ tr).received = (delivery_run ⟨[], []⟩ tr).lastSent := by
  refine ⟨?_, ?_, ?_, ?_, delivery_run_inv tr ⟨[], []⟩ rfl hchain⟩
  · intro h; unfold deliveryDelta; rw [if_pos h]
  · intro h; unfold deliveryDelta; rw [if_neg (by simp [h])]
  · intro h; unfold delivery_step; rw [if_pos h]
  · intro h
    unfold delivery_step
    rw [if_neg h, if_neg h]
    exact ⟨rfl, rfl, rfl⟩

/-- Witness for C2: a two-flush incremental run with cumulative
translations reconstructs the final full translation. -/
theorem C2_delta_delivery_witness :
    chainOK ⟨[], []⟩
        [("hello.".toList, true), ("hello. how are you?".toList, true)] = true ∧
    (delivery_run ⟨[], []⟩
        [("hello.".toList, true), ("hello. how are you?".toList, true)]).received
      = (delivery_run ⟨[], []⟩
        [("hello.".toList, true), ("hello. how are you?".toList, true)]).lastSent :=
  ⟨by decide,
   (C2_delta_delivery ⟨[], []⟩ [] true
      [("hello.".toList, true), ("hello. how are you?".toList, true)]
      (by decide)).2.2.2.2⟩

/-! ## C1: strictly increasing sequence numbers -/

theorem seqsFor_cons (sp li : Nat) (m : AudioMsg) (msgs : List AudioMsg) :
    seqsFor sp li (m :: msgs)
      = if m.speaker = sp ∧ m.listener = li then m.seq :: seqsFor sp li msgs
        else seqsFor sp li msgs := by
  unfold seqsFor
  rw [List.filter_cons]
  by_cases h : m.speaker = sp ∧ m.listener = li <;> simp [h]

theorem procRun_chain (sp li : Nat) (ops : List ProcOp) :
    ∀ st : ProcState,
      List.Chain (· < ·) (st.seqCounters (sp, li))
        (seqsFor sp li (procRun st ops).2) := by
  induction ops with
  | nil =>
      intro st
      simp only [procRun, seqsFor, List.filter_nil, List.map_nil]
      exact List.Chain.nil
  | cons op rest ih =>
      intro st
      cases op with
      | sendAudio sp' li' =>
          simp only [procRun, procStep, Option.toList_some, List.cons_append,
            List.nil_append, seqsFor_cons]
          by_cases h : sp' = sp ∧ li' = li
          · obtain ⟨h1, h2⟩ := h
            subst h1; subst h2
            rw [if_pos ⟨rfl, rfl⟩]
            refine List.Chain.cons (Nat.lt_succ_self _) ?_
            have h3 := ih ({ st with seqCounters :=
              fun k => if k = (sp', li') then st.seqCounters (sp', li') + 1
                       else st.seqCounters k })
            simpa using h3
          · rw [if_neg h]
            have h3 := ih ({ st with seqCounters :=
              fun k => if k = (sp', li') then st.seqCounters (sp', li') + 1
                       else st.seqCounters k })
            have hk : ((sp, li) : Nat × Nat) ≠ (sp', li') := by
              intro he
              apply h
              obtain ⟨ha, hb⟩ := Prod.mk.injEq .. ▸ he
              exact ⟨ha.symm, hb.symm⟩
            simpa [hk] using h3
      | endOfSpeechReset sp' =>
          simp only [procRun, procStep, Option.toList_none, List.nil_append]
          exact ih { st with
            lastSent := fun k => if k.1 = sp' then none else st.lastSent k }
      | contextReset sp' =>
          simp only [procRun, procStep, Option.toList_none, List.nil_append]
          exact ih { st with
            lastSent := fun k => if k.1 = sp' then none else st.lastSent k }
      | stopProcessing sp' =>
          simp only [procRun, procStep, Option.toList_none, List.nil_append]
          exact ih st
      | startProcessing sp' =>
          simp only [procRun, procStep, Option.toList_none, List.nil_append]
          exact ih st

/-- C1: `_send_translated_audio` reads the `(speaker, listener)` counter,
adds one, stores it back and embeds it in the message; no operation (context
reset, end-of-speech, stop or start) ever decreases or clears a counter; and
over every serialized run of operations (per-speaker delivery jobs are
serialized by the per-speaker semaphore) the `seq` values of the messages
from a fixed speaker to a fixed listener are strictly increasing. -/
theorem C1_seq_strictly_increasing :
    (∀ (st : ProcState) (op : ProcOp) (k : Nat × Nat),
        st.seqCounters k ≤ (procStep st op).1.seqCounters k) ∧
    (∀ (st : ProcState) (sp li : Nat),
        (procStep st (.sendAudio sp li)).2
          = some ⟨sp, li, st.seqCounters (sp, li) + 1⟩ ∧
        (procStep st (.sendAudio sp li)).1.seqCounters (sp, li)
          = st.seqCounters (sp, li) + 1) ∧
    (∀ (sp li : Nat) (ops : List ProcOp),
        List.Chain' (· < ·) (seqsFor sp li (procRun procInit ops).2)) := by
  refine ⟨?_, ?_, ?_⟩
  · intro st op k
    cases op with
    | sendAudio sp li =>
        simp only [procStep]
        by_cases h : k = (sp, li)
        · subst h; simp
        · simp [h]
    | endOfSpeechReset sp => exact le_refl _
    | contextReset sp => exact le_refl _
    | stopProcessing sp => exact le_refl _
    | startProcessing sp => exact le_refl _
  · intro st sp li
    constructor
    · rfl
    · simp [procStep]
  · intro sp li ops
    have h := procRun_chain sp li ops procInit
    have h' : List.Chain' (· < ·)
        (procInit.seqCounters (sp, li) :: seqsFor sp li (procRun procInit ops).2) := h
    exact h'.tail

/-! ## C7: rolling-buffer bound -/

theorem lastN_length_le {α : Type} (k : Nat) (l : List α) :
    (lastN k l).length ≤ k := by
  simp only [lastN, List.length_reverse, List.length_take]
  exact min_le_left _ _

theorem bufTrimContext_le_tail (buf : Option (List Nat)) :
    bufLen (bufTrimContext buf) ≤ contextTailBytes := by
  cases buf with
  | none => simp [bufTrimContext, bufLen]
  | some b =>
      simp only [bufTrimContext]
      by_cases h0 : b = []
      · simp [h0, bufLen]
      · rw [if_neg h0]
        by_cases h1 : contextTailBytes < b.length
        · rw [if_pos h1]
          simp only [bufLen, Option.getD_some]
          exact lastN_length_le _ _
        · rw [if_neg h1]
          simp only [bufLen, Option.getD_some]
          omega

theorem bufStep_append_le (buf : Option (List Nat)) (newBytes : List Nat) :
    bufLen (bufStep buf (.appendFrames newBytes)) ≤ rollingMaxBytes := by
  simp only [bufStep, bufLen, Option.getD_some]
  by_cases h : rollingMaxBytes < (buf.getD [] ++ newBytes).length
  · rw [if_pos h]
    exact lastN_length_le _ _
  · rw [if_neg h]
    omega

theorem bufStep_le (buf : Option (List Nat)) (op : BufOp) :
    bufLen (bufStep buf op) ≤ rollingMaxBytes := by
  cases op with
  | appendFrames newBytes => exact bufStep_append_le buf newBytes
  | trimContext =>
      exact le_trans (bufTrimContext_le_tail buf) (by norm_num [contextTailBytes, rollingMaxBytes])
  | silenceReset => simp [bufStep, bufLen]
  | endOfSpeech => simp [bufStep, bufLen]
  | stopProcessing => simp [bufStep, bufLen]

theorem bufRun_le (ops : List BufOp) :
    ∀ buf : Option (List Nat), bufLen buf ≤ rollingMaxBytes →
      bufLen (bufRun buf ops) ≤ rollingMaxBytes := by
  induction ops with
  | nil => intro buf h; exact h
  | cons op rest ih =>
      intro buf _h
      simp only [bufRun]
      exact ih _ (bufStep_le buf op)

/-- C7: in every run of buffer operations from the missing-buffer initial
state, the rolling buffer holds at most `16000 * 3 * 2 = 96000` bytes (the
append operation itself trims to the last 96000 bytes whatever the incoming
frame sizes), and the post-transcript trim leaves at most the ~200 ms tail
of `6400` bytes. -/
theorem C7_rolling_buffer_bounded :
    rollingMaxBytes = 16000 * 3 * 2 ∧
    (∀ ops : List BufOp, bufLen (bufRun none ops) ≤ rollingMaxBytes) ∧
    (∀ (buf : Option (List Nat)) (newBytes : List Nat),
        bufLen (bufStep buf (.appendFrames newBytes)) ≤ rollingMaxBytes) ∧
    (∀ buf : Option (List Nat), bufLen (bufTrimContext buf) ≤ contextTailBytes) := by
  refine ⟨by norm_num [rollingMaxBytes], ?_, ?_, ?_⟩
  · intro ops
    exact bufRun_le ops none (by simp [bufLen])
  · intro buf newBytes
    exact bufStep_append_le buf newBytes
  · exact bufTrimContext_le_tail

/-! ## C6: context reset flushes pending text -/

theorem flush_state (st : SpeakerState) :
    (flush_pending_translation st).1
      = { st with pending := none, pendingStartedAt := none } := by
  unfold flush_pending_translation
  by_cases h : strip (st.pending.getD []) = []
  · rw [if_pos h]
  · rw [if_neg h]
    cases hs : st.lastDetectedState with
    | none => rfl
    | some q =>
        obtain ⟨sp, det, conf, ts⟩ := q
        cases hc : st.cfg with
        | none => rfl
        | some cfg =>
            by_cases hr : cfg.roomId = [] <;> simp [hr]

theorem flush_job_empty (st : SpeakerState)
    (h : strip (st.pending.getD []) = []) :
    (flush_pending_translation st).2.1 = none := by
  unfold flush_pending_translation
  rw [if_pos h]

theorem flush_job (st : SpeakerState) (sp det : List Char) (conf ts : ℚ)
    (cfg : UserConfig) (h : strip (st.pending.getD []) ≠ [])
    (hs : st.lastDetectedState = some (sp, det, conf, ts))
    (hc : st.cfg = some cfg) (hr : cfg.roomId ≠ []) :
    (flush_pending_translation st).2.1
      = some ⟨strip (st.pending.getD []), sp, det, conf⟩ := by
  unfold flush_pending_translation
  rw [if_neg h, hs, hc]
  simp [hr]

theorem reset_state (st : SpeakerState) :
    (reset_context_for_silence st).1
      = { st with
          rollingBuffer := none
          lastTranscript := none
          hadFirstTranscript := false
          speaking := false
          silenceAccMs := 0
          emptyAsrStreak := 0
          lastSentForSpeaker := []
          pending := none
          pendingStartedAt := none } := by
  simp only [reset_context_for_silence, flush_state, trim_rolling_buffer,
    bufTrimContext]

theorem reset_job (st : SpeakerState) :
    (reset_context_for_silence st).2 = (flush_pending_translation st).2.1 := by
  simp only [reset_context_for_silence]

/-- Counterexample to C6 as stated: `_reset_context_for_silence` — used for
prolonged near-silence, hallucinated repetition and repeated empty ASR —
calls `_flush_pending_translation` first, so a non-empty pending transcript
("hello world" here, with a detection snapshot and a room present) IS
scheduled as a delivery job rather than discarded.  (State fields in order:
rolling buffer, last transcript, first-transcript flag, speaking, silence
accumulator, empty-ASR streak, per-listener sent map, pending,
pending-started, detection snapshot, muted, user config.) -/
theorem C6_counterexample :
    ((reset_context_for_silence
        ⟨none, none, true, true, 0, 0, [], some "hello world".toList, some 0,
         some ("en".toList, "en".toList, 9/10, 0), false,
         some ⟨"en".toList, "en".toList, "r1".toList, [], [], none, none⟩⟩).2.map
      TranslationJob.text)
      = some "hello world".toList := by
  decide

/-- C6 (amended): on every context reset through
`_reset_context_for_silence` (prolonged near-silence, hallucinated
repetition, repeated empty ASR), the pending transcript is popped and — when
its stripped content is non-empty and the detection state and a room are
present — flushed first: a delivery job carrying exactly that content is
scheduled, the same as for end-of-speech and language-change flushes.  The
content is dropped without a job only when it strips to empty or the
detection state or room is missing.  The rolling buffer, duplicate window,
first-transcript flag, speaking flag, counters and the speaker's delivery
states are cleared. -/
theorem C6_reset_flushes_pending (st : SpeakerState) :
    (reset_context_for_silence st).1.pending = none ∧
    (reset_context_for_silence st).1.pendingStartedAt = none ∧
    (reset_context_for_silence st).1.rollingBuffer = none ∧
    (reset_context_for_silence st).1.lastTranscript = none ∧
    (reset_context_for_silence st).1.hadFirstTranscript = false ∧
    (reset_context_for_silence st).1.speaking = false ∧
    (reset_context_for_silence st).1.silenceAccMs = 0 ∧
    (reset_context_for_silence st).1.emptyAsrStreak = 0 ∧
    (reset_context_for_silence st).1.lastSentForSpeaker = [] ∧
    (strip (st.pending.getD []) = [] →
      (reset_context_for_silence st).2 = none) ∧
    (∀ sp det conf ts cfg, strip (st.pending.getD []) ≠ [] →
        st.lastDetectedState = some (sp, det, conf, ts) →
        st.cfg = some cfg → cfg.roomId ≠ [] →
        (reset_context_for_silence st).2
          = some ⟨strip (st.pending.getD []), sp, det, conf⟩) := by
  refine ⟨by simp [reset_state], by simp [reset_state], by simp [reset_state],
    by simp [reset_state], by simp [reset_state], by simp [reset_state],
    by simp [reset_state], by simp [reset_state], by simp [reset_state],
    ?_, ?_⟩
  · intro h
    rw [reset_job]
    exact flush_job_empty st h
  · intro sp det conf ts cfg h hs hc hr
    rw [reset_job]
    exact flush_job st sp det conf ts cfg h hs hc hr

/-- Witness for C6 (amended) at a concrete state with non-empty pending
text: the reset clears pending and schedules the job carrying the stripped
content. -/
theorem C6_reset_flushes_pending_witness :
    (reset_context_for_silence
        ⟨some [1, 2], some ("x".toList, 1), true, true, 500, 2,
         [((7, "en".toList), "hi".toList)],
         some " bonjour tout le monde ".toList, some 3,
         some ("fr".toList, "fr".toList, 4/5, 2), false,
         some ⟨"fr".toList, "en".toList, "room7".toList, ["fr".toList], [],
               some "fr".toList, some "fr".toList⟩⟩).1.pending = none ∧
    ((reset_context_for_silence
        ⟨some [1, 2], some ("x".toList, 1), true, true, 500, 2,
         [((7, "en".toList), "hi".toList)],
         some " bonjour tout le monde ".toList, some 3,
         some ("fr".toList, "fr".toList, 4/5, 2), false,
         some ⟨"fr".toList, "en".toList, "room7".toList, ["fr".toList], [],
               some "fr".toList, some "fr".toList⟩⟩).2.map
      TranslationJob.text)
      = some "bonjour tout le monde".toList := by
  constructor
  · exact (C6_reset_flushes_pending _).1
  · have h := (C6_reset_flushes_pending
      ⟨some [1, 2], some ("x".toList, 1), true, true, 500, 2,
       [((7, "en".toList), "hi".toList)],
       some " bonjour tout le monde ".toList, some 3,
       some ("fr".toList, "fr".toList, 4/5, 2), false,
       some ⟨"fr".toList, "en".toList, "room7".toList, ["fr".toList], [],
             some "fr".toList, some "fr".toList⟩⟩).2.2.2.2.2.2.2.2.2.2
      "fr".toList "fr".toList (4/5) 2
      ⟨"fr".toList, "en".toList, "room7".toList, ["fr".toList], [],
        some "fr".toList, some "fr".toList⟩
      (by decide) rfl rfl (by decide)
    rw [h]
    decide

/-! ## C4: language decision -/

theorem toNat_ofNat_valid (n : Nat) (h : n.isValidChar) :
    (Char.ofNat n).toNat = n := by
  unfold Char.ofNat
  rw [dif_pos h]
  rfl

theorem toLower_idem (c : Char) : c.toLower.toLower = c.toLower := by
  simp only [Char.toLower]
  by_cases h : c.toNat ≥ 65 ∧ c.toNat ≤ 90
  · rw [if_pos h]
    have hv : (c.toNat + 32).isValidChar := Or.inl (by omega)
    have hn : ¬((Char.ofNat (c.toNat + 32)).toNat ≥ 65 ∧
        (Char.ofNat (c.toNat + 32)).toNat ≤ 90) := by
      rw [toNat_ofNat_valid _ hv]
      omega
    rw [if_neg hn]
  · rw [if_neg h, if_neg h]

theorem toLower_ne_dash (c : Char) (h : c ≠ '-') : c.toLower ≠ '-' := by
  simp only [Char.toLower]
  by_cases hc : c.toNat ≥ 65 ∧ c.toNat ≤ 90
  · rw [if_pos hc]
    intro he
    have hv : (c.toNat + 32).isValidChar := Or.inl (by omega)
    have h2 := congrArg Char.toNat he
    rw [toNat_ofNat_valid _ hv] at h2
    have h45 : ('-').toNat = 45 := rfl
    rw [h45] at h2
    omega
  · rw [if_neg hc]
    exact h

theorem toLowerStr_idem (s : List Char) :
    toLowerStr (toLowerStr s) = toLowerStr s := by
  unfold toLowerStr
  rw [List.map_map]
  exact List.map_congr_left (fun a _ => toLower_idem a)

theorem takeWhile_eq_self_of_all {α : Type} (p : α → Bool) :
    ∀ l : List α, (∀ a ∈ l, p a = true) → l.takeWhile p = l
  | [], _ => rfl
  | a :: l, h => by
      rw [List.takeWhile_cons_of_pos (h a (.head _))]
      rw [takeWhile_eq_self_of_all p l (fun b hb => h b (.tail _ hb))]

theorem primaryTag_no_dash (x : List Char) :
    ∀ c ∈ primaryTag x, c ≠ '-' := by
  intro c hc
  simpa using List.mem_takeWhile_imp hc

theorem primaryTag_toLowerStr (x : List Char) :
    primaryTag (toLowerStr (primaryTag x)) = toLowerStr (primaryTag x) := by
  unfold primaryTag toLowerStr
  apply takeWhile_eq_self_of_all
  intro a ha
  rw [List.mem_map] at ha
  obtain ⟨b, hb, rfl⟩ := ha
  have hb' : b ≠ '-' := primaryTag_no_dash x b hb
  simpa using toLower_ne_dash b hb'

theorem normPlain_idem (x : List Char) : normPlain (normPlain x) = normPlain x := by
  unfold normPlain
  rw [primaryTag_toLowerStr, toLowerStr_idem]

theorem normPlain_ne_nil (x : List Char) (h : primaryTag x ≠ []) :
    normPlain x ≠ [] := by
  unfold normPlain toLowerStr
  intro he
  exact h (List.map_eq_nil_iff.mp he)

theorem normOr_eq_normPlain (x : List Char) (h : primaryTag x ≠ []) :
    normOr x = normPlain x := by
  unfold normOr normPlain
  rw [if_neg h]

theorem determine_auto_some (d : List Char) (conf : ℚ)
    (lg : Option (List Char)) (sp : List (List Char)) :
    determine_speaker_language "auto".toList (some d) conf lg sp
      = (if (if d = [] then [] else normPlain d) ≠ [] ∧ (7/10 : ℚ) ≤ conf
         then (if d = [] then [] else normPlain d)
         else if lg.getD [] ≠ [] then normOr (lg.getD [])
         else match first_valid_language sp with
              | some fb => normPlain fb
              | none => "en".toList) := by
  simp only [determine_speaker_language]
  have hc : (if ("auto".toList : List Char) = [] then ([] : List Char)
      else normPlain "auto".toList) = "auto".toList := by decide
  rw [hc]
  rw [if_neg (by decide : ¬(("auto".toList : List Char) ≠ [] ∧
      ("auto".toList : List Char) ≠ "auto".toList))]

theorem determine_auto_none (conf : ℚ) (lg : Option (List Char))
    (sp : List (List Char)) :
    determine_speaker_language "auto".toList none conf lg sp
      = (if lg.getD [] ≠ [] then normOr (lg.getD [])
         else match first_valid_language sp with
              | some fb => normPlain fb
              | none => "en".toList) := by
  simp only [determine_speaker_language]
  have hc : (if ("auto".toList : List Char) = [] then ([] : List Char)
      else normPlain "auto".toList) = "auto".toList := by decide
  rw [hc]
  rw [if_neg (by decide : ¬(("auto".toList : List Char) ≠ [] ∧
      ("auto".toList : List Char) ≠ "auto".toList))]
  rw [if_neg (by simp : ¬(([] : List Char) ≠ [] ∧ (7/10 : ℚ) ≤ conf))]

/-- General characterization of the auto-input language decision, shared by
the C4 theorem and its counterexample: under `auto` (or missing) input and
well-formed tags, the chosen language is the normalized primary subtag of
the (speaks-pref-biased) detection when the (possibly raised) confidence is
at least 0.70, and otherwise the normalized
`last_good_input / speaks_pref / en` fallback chain. -/
theorem chosenLanguage_auto (inputLang rawDetected : List Char)
    (rawConf : ℚ) (lastGoodInput : Option (List Char))
    (speaksPref : List (List Char))
    (hauto : inputLang = "auto".toList ∨ inputLang = [])
    (hdet : primaryTag rawDetected ≠ [] ∨ rawDetected = [])
    (hsp : ∀ l ∈ speaksPref, primaryTag l ≠ []) :
    ((7/10 : ℚ) ≤ (biasDetection inputLang (forcedLang inputLang lastGoodInput)
        speaksPref rawDetected rawConf).2 →
      (biasDetection inputLang (forcedLang inputLang lastGoodInput)
        speaksPref rawDetected rawConf).1 ≠ [] →
      chosenLanguage inputLang rawDetected rawConf lastGoodInput speaksPref
        = normPlain (biasDetection inputLang (forcedLang inputLang lastGoodInput)
            speaksPref rawDetected rawConf).1) ∧
    ((biasDetection inputLang (forcedLang inputLang lastGoodInput)
        speaksPref rawDetected rawConf).2 < 7/10 →
      chosenLanguage inputLang rawDetected rawConf lastGoodInput speaksPref
        = normOr (fallbackChain lastGoodInput speaksPref)) := by
  have hnotc : ¬(inputLang ≠ [] ∧ inputLang ≠ "auto".toList) := by
    rcases hauto with h | h <;> simp [h]
  set B := biasDetection inputLang (forcedLang inputLang lastGoodInput)
    speaksPref rawDetected rawConf with hB
  have hch : chosenLanguage inputLang rawDetected rawConf lastGoodInput speaksPref
      = lowConfGuard inputLang B.1 B.2 lastGoodInput speaksPref
          (determine_speaker_language
            (if inputLang ≠ [] ∧ inputLang ≠ "auto".toList
              then normPlain inputLang else "auto".toList)
            (if B.1 = [] then none else some (normPlain B.1))
            B.2 lastGoodInput speaksPref) := rfl
  rw [if_neg hnotc] at hch
  have hcases : B = (rawDetected, rawConf) ∨
      (∃ sp0, first_valid_language speaksPref = some sp0 ∧
        B = (sp0, max rawConf (3/4 : ℚ))) := by
    rw [hB]
    unfold biasDetection
    rw [if_pos (Or.symm hauto)]
    cases hfv : first_valid_language speaksPref with
    | none => exact Or.inl rfl
    | some sp0 =>
        dsimp only
        by_cases hc : sp0 ≠ (forcedLang inputLang lastGoodInput).getD rawDetected
        · rw [if_pos hc]
          exact Or.inr ⟨sp0, rfl, rfl⟩
        · rw [if_neg hc]
          exact Or.inl rfl
  have hBtag : B.1 ≠ [] → primaryTag B.1 ≠ [] := by
    intro hne
    rcases hcases with h | ⟨sp0, hfv, h⟩
    · rw [h]
      dsimp only
      rcases hdet with hd | hd
      · exact hd
      · rw [h] at hne
        dsimp only at hne
        exact absurd hd hne
    · rw [h]
      dsimp only
      exact hsp sp0 (List.mem_of_find?_eq_some hfv)
  constructor
  · intro hconf hne
    rw [hch]
    rw [if_neg (show ¬ (B.1 = []) from hne)]
    rw [determine_auto_some]
    have hnp : normPlain B.1 ≠ [] := normPlain_ne_nil _ (hBtag hne)
    rw [if_neg (show ¬ (normPlain B.1 = []) from hnp)]
    rw [normPlain_idem]
    rw [if_pos ⟨hnp, hconf⟩]
    unfold lowConfGuard
    rw [if_neg]
    rintro ⟨-, -, hlt⟩
    exact absurd hconf (not_le.mpr hlt)
  · intro hlow
    have hBval : B = (rawDetected, rawConf) := by
      rcases hcases with h | ⟨sp0, hfv, h⟩
      · exact h
      · exfalso
        rw [h] at hlow
        dsimp only at hlow
        have h34 := le_max_right rawConf (3/4 : ℚ)
        have : (3/4 : ℚ) < 7/10 := lt_of_le_of_lt h34 hlow
        norm_num at this
    have hB1 : B.1 = rawDetected := by rw [hBval]
    have hB2 : B.2 = rawConf := by rw [hBval]
    rw [hB2] at hlow
    rw [hch, hB1, hB2]
    have hkey : determine_speaker_language "auto".toList
        (if rawDetected = [] then none else some (normPlain rawDetected))
        rawConf lastGoodInput speaksPref
        = normOr (fallbackChain lastGoodInput speaksPref) := by
      have hbranch : determine_speaker_language "auto".toList
          (if rawDetected = [] then none else some (normPlain rawDetected))
          rawConf lastGoodInput speaksPref
          = (if lastGoodInput.getD [] ≠ [] then normOr (lastGoodInput.getD [])
             else match first_valid_language speaksPref with
                  | some fb => normPlain fb
                  | none => "en".toList) := by
        by_cases hrd : rawDetected = []
        · rw [if_pos hrd, determine_auto_none]
        · rw [if_neg hrd, determine_auto_some]
          rw [if_neg (fun hand => absurd hand.2 (not_le.mpr hlow))]
      rw [hbranch]
      by_cases hlg : lastGoodInput.getD [] ≠ []
      · rw [if_pos hlg]
        cases hl : lastGoodInput with
        | none =>
            rw [hl] at hlg
            simp at hlg
        | some s =>
            rw [hl] at hlg
            have hs : s ≠ [] := by simpa using hlg
            unfold fallbackChain
            dsimp only
            rw [if_neg hs]
            rfl
      · rw [if_neg hlg]
        have hfb : fallbackChain lastGoodInput speaksPref
            = (match first_valid_language speaksPref with
               | some f => f
               | none => "en".toList) := by
          unfold fallbackChain
          cases hl : lastGoodInput with
          | none => rfl
          | some s =>
              rw [hl] at hlg
              have hs : s = [] := by simpa using hlg
              dsimp only
              rw [if_pos hs]
        rw [hfb]
        cases hfv : first_valid_language speaksPref with
        | none =>
            dsimp only
            decide
        | some fb =>
            dsimp only
            exact (normOr_eq_normPlain fb
              (hsp fb (List.mem_of_find?_eq_some hfv))).symm
    rw [hkey]
    unfold lowConfGuard
    by_cases hrd : rawDetected = []
    · rw [if_neg (by rintro ⟨-, h2, -⟩; exact h2 hrd)]
    · rw [if_pos ⟨hauto, hrd, hlow⟩]
      rw [ite_self]

/-- Counterexample to C4 as stated: with `input_lang = auto`, a raw
detection of `pt` at confidence `0.95 ≥ 0.70` and `speaks_pref = ["en"]`,
the speaks-pref biasing of lines 378-386 replaces the detection, and the
chosen speaker language is `en`, not the raw detection's normalized primary
subtag `pt`. -/
theorem C4_counterexample :
    (7/10 : ℚ) ≤ 95/100 ∧
    chosenLanguage "auto".toList "pt".toList (95/100) none ["en".toList]
      = "en".toList ∧
    normPlain "pt".toList = "pt".toList ∧
    ("en".toList : List Char) ≠ "pt".toList := by
  refine ⟨by norm_num, ?_, by decide, by decide⟩
  have hb : biasDetection "auto".toList (forcedLang "auto".toList none)
      ["en".toList] "pt".toList (95/100)
      = ("en".toList, max (95/100 : ℚ) (3/4)) := by
    unfold biasDetection
    rw [if_pos (Or.inr rfl)]
    have hfv : first_valid_language ["en".toList] = some "en".toList := by
      decide
    rw [hfv]
    dsimp only
    rw [if_pos (by decide : ("en".toList : List Char)
        ≠ (forcedLang "auto".toList none).getD "pt".toList)]
  have h := (chosenLanguage_auto "auto".toList "pt".toList (95/100) none
    ["en".toList] (Or.inl rfl) (Or.inl (by decide))
    (by intro l hl; simp only [List.mem_singleton] at hl; subst hl; decide)).1
  rw [hb] at h
  have h2 := h (le_trans (by norm_num : (7/10 : ℚ) ≤ 95/100) (le_max_left _ _))
    (by decide)
  rw [h2]
  decide

/-- C4 (amended): for every ASR decision with `input_lang = auto` (or
missing) and well-formed language tags (non-empty primary subtags), the
detection is first speaks-pref-biased (lines 378-386): a concrete first
`speaks_pref` entry differing from the hint-or-raw-detection replaces the
detected language and raises the confidence to at least 0.75.  When the
resulting confidence is at least 0.70 and the resulting detection is
non-empty, the chosen speaker language is the normalized primary subtag of
the (biased) detection — not necessarily of the raw recognizer report.
When the resulting confidence is below 0.70, the chosen language is the
normalized `last_good_input`, else the first concrete `speaks_pref` entry,
else `en`. -/
theorem C4_language_decision (inputLang rawDetected : List Char)
    (rawConf : ℚ) (lastGoodInput : Option (List Char))
    (speaksPref : List (List Char))
    (hauto : inputLang = "auto".toList ∨ inputLang = [])
    (hdet : primaryTag rawDetected ≠ [] ∨ rawDetected = [])
    (hsp : ∀ l ∈ speaksPref, primaryTag l ≠ []) :
    ((7/10 : ℚ) ≤ (biasDetection inputLang (forcedLang inputLang lastGoodInput)
        speaksPref rawDetected rawConf).2 →
      (biasDetection inputLang (forcedLang inputLang lastGoodInput)
        speaksPref rawDetected rawConf).1 ≠ [] →
      chosenLanguage inputLang rawDetected rawConf lastGoodInput speaksPref
        = normPlain (biasDetection inputLang (forcedLang inputLang lastGoodInput)
            speaksPref rawDetected rawConf).1) ∧
    ((biasDetection inputLang (forcedLang inputLang lastGoodInput)
        speaksPref rawDetected rawConf).2 < 7/10 →
      chosenLanguage inputLang rawDetected rawConf lastGoodInput speaksPref
        = normOr (fallbackChain lastGoodInput speaksPref)) :=
  chosenLanguage_auto inputLang rawDetected rawConf lastGoodInput speaksPref
    hauto hdet hsp

/-- Witness for C4 (amended): `auto` input, raw detection `pt-BR` at
confidence 0.9 and no preferences chooses `pt`. -/
theorem C4_language_decision_witness :
    chosenLanguage "auto".toList "pt-BR".toList (9/10) none [] = "pt".toList := by
  have hb : biasDetection "auto".toList (forcedLang "auto".toList none) []
      "pt-BR".toList (9/10) = ("pt-BR".toList, 9/10) := by
    unfold biasDetection
    rw [if_pos (Or.inr rfl)]
    rfl
  have h := (C4_language_decision "auto".toList "pt-BR".toList (9/10) none []
    (Or.inl rfl) (Or.inl (by decide)) (by intro l hl; simp at hl)).1
  rw [hb] at h
  have h2 := h (by norm_num) (by decide)
  rw [h2]
  decide

/-! ## C3: hallucination guard -/

theorem reset_job_text (st : SpeakerState) :
    ∀ j ∈ (reset_context_for_silence st).2.toList,
      j.text = strip (st.pending.getD []) := by
  intro j hj
  rw [reset_job] at hj
  unfold flush_pending_translation at hj
  by_cases h : strip (st.pending.getD []) = []
  · rw [if_pos h] at hj
    simp at hj
  · rw [if_neg h] at hj
    cases hls : st.lastDetectedState with
    | none =>
        rw [hls] at hj
        simp at hj
    | some q =>
        obtain ⟨sp, det, conf, ts⟩ := q
        rw [hls] at hj
        cases hc : st.cfg with
        | none =>
            rw [hc] at hj
            simp at hj
        | some cfg =>
            rw [hc] at hj
            dsimp only at hj
            by_cases hr : cfg.roomId = []
            · rw [if_pos hr] at hj
              simp at hj
            · rw [if_neg hr] at hj
              dsimp only [Option.toList_some] at hj
              rw [List.mem_singleton] at hj
              rw [hj]

theorem process_transcript_hallucination (st : SpeakerState)
    (rawText rawDetected : List Char) (rawConf now : ℚ) (cfg : UserConfig)
    (hcfg : st.cfg = some cfg)
    (hnoise : ¬(strip rawText = [] ∨ strip rawText ∈ noiseTexts))
    (hrep : findWords (toLowerStr (strip rawText)) ≠ [] ∧
      looks_repetitive (findWords (toLowerStr (strip rawText))) = true) :
    process_transcript st rawText rawDetected rawConf now
      = ⟨(reset_context_for_silence { st with emptyAsrStreak := 0 }).1,
         some "hallucinated repetition".toList, none,
         (reset_context_for_silence { st with emptyAsrStreak := 0 }).2.toList⟩ := by
  unfold process_transcript
  rw [hcfg]
  dsimp only
  rw [if_neg hnoise]
  rw [if_pos hrep]

/-- C3: over its word-character tokens, a transcript is flagged as
hallucinated repetition if and only if one of: at least 30 tokens and the
most frequent token makes at least 30% of them; at least 40 tokens and the
unique/total proportion is at most 0.45; at least 24 tokens and the most
frequent bigram makes at least 40% of the bigrams (stated with exact
integer inequalities equivalent to the source's rational comparisons).  And
every flagged transcript makes `_process_audio_chunk` reset the context
with reason "hallucinated repetition" and return before the
`partial_transcript` broadcast and before the transcript is buffered: no
partial message, no delivery job for it (the only jobs scheduled carry the
previously pending text, flushed by the reset). -/
theorem C3_hallucination_guard :
    (∀ tokens : List (List Char),
      looks_repetitive tokens = true ↔
        ((30 ≤ tokens.length ∧ 3 * tokens.length ≤ 10 * topCount tokens) ∨
         (40 ≤ tokens.length ∧ 20 * tokens.dedup.length ≤ 9 * tokens.length) ∨
         (24 ≤ tokens.length ∧
           2 * (tokens.zip tokens.tail).length
             ≤ 5 * topCount (tokens.zip tokens.tail)))) ∧
    (∀ (st : SpeakerState) (rawText rawDetected : List Char)
        (rawConf now : ℚ) (cfg : UserConfig), st.cfg = some cfg →
      ¬(strip rawText = [] ∨ strip rawText ∈ noiseTexts) →
      findWords (toLowerStr (strip rawText)) ≠ [] →
      looks_repetitive (findWords (toLowerStr (strip rawText))) = true →
      process_transcript st rawText rawDetected rawConf now
        = ⟨(reset_context_for_silence { st with emptyAsrStreak := 0 }).1,
           some "hallucinated repetition".toList, none,
           (reset_context_for_silence { st with emptyAsrStreak := 0 }).2.toList⟩ ∧
      (process_transcript st rawText rawDetected rawConf now).partialText = none ∧
      (∀ j ∈ (process_transcript st rawText rawDetected rawConf now).jobs,
        j.text = strip (st.pending.getD []))) := by
  constructor
  · intro tokens
    by_cases hnil : tokens = []
    · subst hnil
      simp [looks_repetitive]
    · simp only [looks_repetitive]
      rw [if_neg hnil, decide_eq_true_eq]
      have hn : 0 < tokens.length := List.length_pos.mpr hnil
      have hmax : max 1 tokens.length = tokens.length := max_eq_right hn
      by_cases hbg : tokens.zip tokens.tail = []
      · have hlen1 : tokens.length ≤ 1 := by
          rcases tokens with - | ⟨a, ts⟩
          · simp
          · rcases ts with - | ⟨b, ts'⟩
            · simp
            · simp [List.zip_cons_cons] at hbg
        constructor
        · rintro (⟨h, -⟩ | ⟨h, -⟩ | ⟨h, -⟩) <;> omega
        · rintro (⟨h, -⟩ | ⟨h, -⟩ | ⟨h, -⟩) <;> omega
      · have hbgpos : 0 < (tokens.zip tokens.tail).length :=
          List.length_pos.mpr hbg
        have hmax2 : max 1 (tokens.zip tokens.tail).length
            = (tokens.zip tokens.tail).length := max_eq_right hbgpos
        rw [if_neg hbg, hmax, hmax2]
        have hnQ : (0:ℚ) < (tokens.length : ℚ) := by exact_mod_cast hn
        have hbQ : (0:ℚ) < ((tokens.zip tokens.tail).length : ℚ) := by
          exact_mod_cast hbgpos
        have h1 : ((3/10 : ℚ) ≤ (topCount tokens : ℚ) / (tokens.length : ℚ))
            ↔ 3 * tokens.length ≤ 10 * topCount tokens := by
          rw [div_le_div_iff₀ (by norm_num : (0:ℚ) < 10) hnQ]
          constructor
          · intro h
            have h' : 3 * tokens.length ≤ topCount tokens * 10 := by
              exact_mod_cast h
            omega
          · intro h
            have h' : 3 * tokens.length ≤ topCount tokens * 10 := by omega
            exact_mod_cast h'
        have h2 : ((tokens.dedup.length : ℚ) / (tokens.length : ℚ) ≤ 45/100)
            ↔ 20 * tokens.dedup.length ≤ 9 * tokens.length := by
          rw [div_le_div_iff₀ hnQ (by norm_num : (0:ℚ) < 100)]
          constructor
          · intro h
            have h' : tokens.dedup.length * 100 ≤ 45 * tokens.length := by
              exact_mod_cast h
            omega
          · intro h
            have h' : tokens.dedup.length * 100 ≤ 45 * tokens.length := by omega
            exact_mod_cast h'
        have h3 : ((2/5 : ℚ) ≤ (topCount (tokens.zip tokens.tail) : ℚ)
              / ((tokens.zip tokens.tail).length : ℚ))
            ↔ 2 * (tokens.zip tokens.tail).length
              ≤ 5 * topCount (tokens.zip tokens.tail) := by
          rw [div_le_div_iff₀ (by norm_num : (0:ℚ) < 5) hbQ]
          constructor
          · intro h
            have h' : 2 * (tokens.zip tokens.tail).length
                ≤ topCount (tokens.zip tokens.tail) * 5 := by
              exact_mod_cast h
            omega
          · intro h
            have h' : 2 * (tokens.zip tokens.tail).length
                ≤ topCount (tokens.zip tokens.tail) * 5 := by omega
            exact_mod_cast h'
        rw [h1, h2, h3]
  · intro st rawText rawDetected rawConf now cfg hcfg hnoise htok hrep
    have heq := process_transcript_hallucination st rawText rawDetected
      rawConf now cfg hcfg hnoise ⟨htok, hrep⟩
    refine ⟨heq, by rw [heq], ?_⟩
    intro j hj
    rw [heq] at hj
    exact reset_job_text { st with emptyAsrStreak := 0 } j hj

/-- Witness for C3: a 24-fold repetition of a bigram is flagged and makes
the processing path reset without a partial transcript or any job (the
pending buffer is empty here). -/
theorem C3_hallucination_guard_witness :
    (process_transcript
        ⟨none, none, false, false, 0, 0, [], none, none, none, false,
         some ⟨"en".toList, "en".toList, "r".toList, [], [], none, none⟩⟩
        "ab ab ab ab ab ab ab ab ab ab ab ab ab ab ab ab ab ab ab ab ab ab ab ab".toList
        "en".toList (9/10) 0).resetReason
      = some "hallucinated repetition".toList ∧
    (process_transcript
        ⟨none, none, false, false, 0, 0, [], none, none, none, false,
         some ⟨"en".toList, "en".toList, "r".toList, [], [], none, none⟩⟩
        "ab ab ab ab ab ab ab ab ab ab ab ab ab ab ab ab ab ab ab ab ab ab ab ab".toList
        "en".toList (9/10) 0).partialText = none ∧
    (process_transcript
        ⟨none, none, false, false, 0, 0, [], none, none, none, false,
         some ⟨"en".toList, "en".toList, "r".toList, [], [], none, none⟩⟩
        "ab ab ab ab ab ab ab ab ab ab ab ab ab ab ab ab ab ab ab ab ab ab ab ab".toList
        "en".toList (9/10) 0).jobs = [] := by
  have hrep : looks_repetitive (findWords (toLowerStr (strip
      "ab ab ab ab ab ab ab ab ab ab ab ab ab ab ab ab ab ab ab ab ab ab ab ab".toList)))
      = true :=
    (C3_hallucination_guard.1 _).mpr (Or.inr (Or.inr (by decide)))
  have h := C3_hallucination_guard.2
    ⟨none, none, false, false, 0, 0, [], none, none, none, false,
     some ⟨"en".toList, "en".toList, "r".toList, [], [], none, none⟩⟩
    "ab ab ab ab ab ab ab ab ab ab ab ab ab ab ab ab ab ab ab ab ab ab ab ab".toList
    "en".toList (9/10) 0
    ⟨"en".toList, "en".toList, "r".toList, [], [], none, none⟩
    rfl (by decide) (by decide) hrep
  refine ⟨by rw [h.1], h.2.1, ?_⟩
  rw [h.1]
  dsimp only
  rw [reset_job, flush_job_empty _ (by decide)]
  rfl

/-! ## C8: per-user delivery cleanup in the websocket manager -/

theorem safe_send_alive (st : ConnState) (u : Nat) (s0 : List Chan)
    (hs : st.active u = some s0) (hne : s0 ≠ [])
    (halive : s0.filter (fun c => c.ok) ≠ []) :
    safe_send st u =
      ⟨{ st with active := fun v =>
          if v = u then some (s0.filter (fun c => c.ok)) else st.active v },
       (s0.filter (fun c => c.ok)).map Chan.id,
       (s0.filter (fun c => !c.ok)).map Chan.id⟩ := by
  unfold safe_send
  rw [hs]
  simp only [Option.getD_some]
  rw [if_neg hne]
  rw [if_pos halive]

theorem safe_send_dead (st : ConnState) (u : Nat) (s0 : List Chan)
    (hs : st.active u = some s0) (hne : s0 ≠ [])
    (halive : s0.filter (fun c => c.ok) = []) :
    safe_send st u =
      ⟨disconnect st u, [], (s0.filter (fun c => !c.ok)).map Chan.id⟩ := by
  unfold safe_send
  rw [hs]
  simp only [Option.getD_some]
  rw [if_neg hne]
  rw [if_neg (not_not_intro halive)]

theorem disconnect_spec (st : ConnState) (u : Nat) (roomId : List Char)
    (users : List Nat)
    (hur : st.userRooms u = some roomId) (hr : roomId ≠ [])
    (hrm : st.rooms roomId = some users) :
    disconnect st u =
      ⟨fun v => if v = u then none else st.active v,
       fun r => if r = roomId then
           (if users.erase u = [] then none else some (users.erase u))
         else st.rooms r,
       fun v => if v = u then none else st.userRooms v⟩ := by
  unfold disconnect
  rw [hur]
  dsimp only
  rw [if_neg hr, hrm]
  dsimp only
  by_cases hm : u ∈ users
  · rw [if_pos hm]
  · rw [if_neg hm, List.erase_of_not_mem hm]

/-- C8: a `send_to_user` delivery (`_safe_send`) attempts the payload on
every recorded channel of the user; exactly the channels whose send
succeeds are delivered on and kept, exactly the failing ones are closed and
removed.  When some channel survives, only the user's channel list changes.
When every channel fails, the user is disconnected: the channel list is
dropped, the user-to-room record is dropped, the user is removed from the
room's member list (the room entry deleted when it becomes empty, so the
user no longer appears in it), and no other user's channels, room record,
or any other room is affected. -/
theorem C8_send_failure_cleanup (st : ConnState) (u : Nat) (s0 : List Chan)
    (roomId : List Char) (users : List Nat)
    (hs : st.active u = some s0) (hne : s0 ≠ []) :
    (safe_send st u).delivered = (s0.filter (fun c => c.ok)).map Chan.id ∧
    (safe_send st u).closed = (s0.filter (fun c => !c.ok)).map Chan.id ∧
    (s0.filter (fun c => c.ok) ≠ [] →
      (safe_send st u).state.active u = some (s0.filter (fun c => c.ok)) ∧
      (∀ v, v ≠ u → (safe_send st u).state.active v = st.active v) ∧
      (safe_send st u).state.rooms = st.rooms ∧
      (safe_send st u).state.userRooms = st.userRooms) ∧
    (s0.filter (fun c => c.ok) = [] →
      st.userRooms u = some roomId → roomId ≠ [] →
      st.rooms roomId = some users → users.Nodup →
      (safe_send st u).state.active u = none ∧
      (safe_send st u).state.userRooms u = none ∧
      (safe_send st u).state.rooms roomId
        = (if users.erase u = [] then none else some (users.erase u)) ∧
      u ∉ ((safe_send st u).state.rooms roomId).getD [] ∧
      (∀ v, v ≠ u →
        (safe_send st u).state.active v = st.active v ∧
        (safe_send st u).state.userRooms v = st.userRooms v) ∧
      (∀ r, r ≠ roomId → (safe_send st u).state.rooms r = st.rooms r)) := by
  by_cases halive : s0.filter (fun c => c.ok) = []
  · rw [safe_send_dead st u s0 hs hne halive]
    refine ⟨by rw [halive]; rfl, rfl, fun h => absurd halive h, ?_⟩
    intro _ hur hrne hrm hnodup
    rw [disconnect_spec st u roomId users hur hrne hrm]
    dsimp only
    refine ⟨by rw [if_pos rfl], by rw [if_pos rfl], by rw [if_pos rfl], ?_, ?_, ?_⟩
    · rw [if_pos rfl]
      by_cases herase : users.erase u = []
      · rw [if_pos herase]
        simp
      · rw [if_neg herase]
        exact hnodup.not_mem_erase
    · intro v hv
      exact ⟨by rw [if_neg hv], by rw [if_neg hv]⟩
    · intro r hr
      rw [if_neg hr]
  · rw [safe_send_alive st u s0 hs hne halive]
    refine ⟨rfl, rfl, ?_, fun h => absurd h halive⟩
    intro _
    refine ⟨by dsimp only; rw [if_pos rfl], ?_, rfl, rfl⟩
    intro v hv
    dsimp only
    rw [if_neg hv]

/-- Witness for C8: user 1 has two dead channels and sits in room "r" with
user 2; the send delivers nothing, closes both channels, unregisters user 1
(room membership shrunk to [2]) and leaves user 2's live channel alone. -/
theorem C8_send_failure_cleanup_witness :
    (safe_send
      ⟨fun v => if v = 1 then some [⟨10, false⟩, ⟨11, false⟩]
                else if v = 2 then some [⟨20, true⟩] else none,
       fun r => if r = "r".toList then some [1, 2] else none,
       fun v => if v = 1 then some "r".toList
                else if v = 2 then some "r".toList else none⟩ 1).delivered = [] ∧
    (safe_send
      ⟨fun v => if v = 1 then some [⟨10, false⟩, ⟨11, false⟩]
                else if v = 2 then some [⟨20, true⟩] else none,
       fun r => if r = "r".toList then some [1, 2] else none,
       fun v => if v = 1 then some "r".toList
                else if v = 2 then some "r".toList else none⟩ 1).closed = [10, 11] ∧
    (safe_send
      ⟨fun v => if v = 1 then some [⟨10, false⟩, ⟨11, false⟩]
                else if v = 2 then some [⟨20, true⟩] else none,
       fun r => if r = "r".toList then some [1, 2] else none,
       fun v => if v = 1 then some "r".toList
                else if v = 2 then some "r".toList else none⟩ 1).state.active 1 = none ∧
    (safe_send
      ⟨fun v => if v = 1 then some [⟨10, false⟩, ⟨11, false⟩]
                else if v = 2 then some [⟨20, true⟩] else none,
       fun r => if r = "r".toList then some [1, 2] else none,
       fun v => if v = 1 then some "r".toList
                else if v = 2 then some "r".toList else none⟩ 1).state.userRooms 1 = none ∧
    (safe_send
      ⟨fun v => if v = 1 then some [⟨10, false⟩, ⟨11, false⟩]
                else if v = 2 then some [⟨20, true⟩] else none,
       fun r => if r = "r".toList then some [1, 2] else none,
       fun v => if v = 1 then some "r".toList
                else if v = 2 then some "r".toList else none⟩ 1).state.rooms "r".toList
      = some [2] ∧
    (safe_send
      ⟨fun v => if v = 1 then some [⟨10, false⟩, ⟨11, false⟩]
                else if v = 2 then some [⟨20, true⟩] else none,
       fun r => if r = "r".toList then some [1, 2] else none,
       fun v => if v = 1 then some "r".toList
                else if v = 2 then some "r".toList else none⟩ 1).state.active 2
      = some [⟨20, true⟩] := by
  have h := C8_send_failure_cleanup
    ⟨fun v => if v = 1 then some [⟨10, false⟩, ⟨11, false⟩]
              else if v = 2 then some [⟨20, true⟩] else none,
     fun r => if r = "r".toList then some [1, 2] else none,
     fun v => if v = 1 then some "r".toList
              else if v = 2 then some "r".toList else none⟩
    1 [⟨10, false⟩, ⟨11, false⟩] "r".toList [1, 2] rfl (by simp)
  have hdead := h.2.2.2 rfl rfl (by decide) rfl (by decide)
  refine ⟨by rw [h.1]; rfl, by rw [h.2.1]; rfl, hdead.1, hdead.2.1, ?_, ?_⟩
  · rw [hdead.2.2.1]
    decide
  · exact ((hdead.2.2.2.2.1 2 (by decide)).1).trans rfl

end Orbis
